import Mathlib

/-!
Verification of the AST-based OOP-vs-FP counter (`count.ts`).

The tool parses TypeScript files, walks each syntax tree counting
class-like constructs (classes, methods, accessors, constructors) and
function-like constructs (function declarations, function expressions,
arrow functions), filters the directory tree, and reports aggregate
totals together with a ratio.

Embedding choices:
* A syntax tree is a `TSNode`: a node kind (only the kinds the
  classifier dispatches on are distinguished; every other TypeScript
  `SyntaxKind` is `other`) together with the list of children that
  `ts.forEachChild` would visit, in visit order.
* The mutable `Counts` record threaded through `countNode` becomes an
  explicit accumulator argument; `ts.forEachChild` becomes a left-to-right
  fold over the child list (`countChildren`).
* `countFile`'s read/parse step is modelled by an `Option (List TSNode)`
  argument: `some roots` is a successful parse (the top-level nodes of the
  source file), `none` is any read or parse failure caught by its
  `try`/`catch`.
* JavaScript numbers are modelled by `Nat`/`ℚ` (all quantities involved
  are small non-negative integers or exact two-decimal values, far below
  any double-precision rounding threshold).
-/

/-- Node kinds distinguished by the `switch` in `countNode`; `other`
stands for every remaining `ts.SyntaxKind`. -/
inductive NodeKind where
  | classDeclaration
  | classExpression
  | methodDeclaration
  | getAccessor
  | setAccessor
  | constructorDecl
  | functionDeclaration
  | functionExpression
  | arrowFunction
  | other
deriving DecidableEq, Repr

/-- A syntax-tree node: its kind and the children `ts.forEachChild`
visits, in order. -/
inductive TSNode where
  | mk (kind : NodeKind) (children : List TSNode)

/-- The four counters of `interface Counts` in `count.ts`. -/
structure Counts where
  classes : Nat
  methods : Nat
  functions : Nat
  arrowFunctions : Nat
deriving DecidableEq, Repr

def Counts.zero : Counts := ⟨0, 0, 0, 0⟩

/-- Componentwise addition of counters (the driver's `totals.x += counts.x`). -/
def Counts.add (a b : Counts) : Counts :=
  ⟨a.classes + b.classes, a.methods + b.methods,
   a.functions + b.functions, a.arrowFunctions + b.arrowFunctions⟩

instance : Add Counts := ⟨Counts.add⟩

theorem Counts.add_eq (a b : Counts) : a + b = Counts.add a b := rfl

mutual

/-- Translation of `countNode(node, counts, inClass)` from `count.ts`:
dispatch on the node kind, update the counters, and recurse into the
children.  The class-like cases recurse with the flag forced to `true`
and return (the `return` in the source skips the trailing
`ts.forEachChild`); every other case falls through to the trailing
recursion with the incoming flag. -/
def countNode (node : TSNode) (counts : Counts) (inClass : Bool) : Counts :=
  match node with
  | .mk kind children =>
    match kind with
    | .classDeclaration | .classExpression =>
        countChildren children { counts with classes := counts.classes + 1 } true
    | .methodDeclaration | .getAccessor | .setAccessor | .constructorDecl =>
        countChildren children
          (if inClass then { counts with methods := counts.methods + 1 } else counts) inClass
    | .functionDeclaration =>
        countChildren children { counts with functions := counts.functions + 1 } inClass
    | .functionExpression =>
        countChildren children
          (if inClass then counts else { counts with functions := counts.functions + 1 }) inClass
    | .arrowFunction =>
        countChildren children
          (if inClass then counts
           else { counts with arrowFunctions := counts.arrowFunctions + 1 }) inClass
    | .other => countChildren children counts inClass

/-- Translation of `ts.forEachChild(node, child => countNode(child, counts, b))`:
a left-to-right fold of `countNode` over the child list. -/
def countChildren (nodes : List TSNode) (counts : Counts) (inClass : Bool) : Counts :=
  match nodes with
  | [] => counts
  | n :: rest => countChildren rest (countNode n counts inClass) inClass

end

/-- The classifier applied to a whole source file: `countFile`'s
`ts.forEachChild(sourceFile, node => countNode(node, counts, false))`
over the file's top-level nodes, starting from zero counters. -/
def classify (roots : List TSNode) : Counts :=
  countChildren roots Counts.zero false

/-- Translation of `countFile`: on a successful parse run the classifier
on the file's top-level nodes; on any read or parse failure (the
`catch` branch) return the zero counters.  The function is total: no
failure escapes to the caller. -/
def countFile (parsed : Option (List TSNode)) : Counts :=
  match parsed with
  | none => Counts.zero
  | some roots => classify roots

/-- Basic algebra of `Counts.add`. -/
theorem Counts.zero_add (a : Counts) : Counts.zero + a = a := by
  cases a; simp [Counts.add_eq, Counts.add, Counts.zero]

theorem Counts.add_zero (a : Counts) : a + Counts.zero = a := by
  cases a; simp [Counts.add_eq, Counts.add, Counts.zero]

theorem Counts.add_assoc (a b c : Counts) : a + b + c = a + (b + c) := by
  cases a; cases b; cases c
  simp [Counts.add_eq, Counts.add]; omega

theorem Counts.add_comm (a b : Counts) : a + b = b + a := by
  cases a; cases b
  simp [Counts.add_eq, Counts.add]; omega

/-- Auxiliary shape lemma: the class-like update written with `with`
equals adding a one-class counter. -/
theorem Counts.classesUpd (c : Counts) :
    { c with classes := c.classes + 1 } = c + ⟨1, 0, 0, 0⟩ := by
  cases c; simp [Counts.add_eq, Counts.add]

theorem Counts.methodsUpd (c : Counts) :
    { c with methods := c.methods + 1 } = c + ⟨0, 1, 0, 0⟩ := by
  cases c; simp [Counts.add_eq, Counts.add]

theorem Counts.functionsUpd (c : Counts) :
    { c with functions := c.functions + 1 } = c + ⟨0, 0, 1, 0⟩ := by
  cases c; simp [Counts.add_eq, Counts.add]

theorem Counts.arrowsUpd (c : Counts) :
    { c with arrowFunctions := c.arrowFunctions + 1 } = c + ⟨0, 0, 0, 1⟩ := by
  cases c; simp [Counts.add_eq, Counts.add]

mutual

/-- The accumulator is only ever added to: the result of `countNode`
starting from `c` is `c` plus the node's own contribution. -/
theorem countNode_shift (n : TSNode) (c : Counts) (b : Bool) :
    countNode n c b = c + countNode n Counts.zero b := by
  cases n with
  | mk kind children =>
    cases kind with
    | classDeclaration =>
      simp only [countNode, Counts.classesUpd, Counts.zero_add]
      rw [countChildren_shift children (c + ⟨1, 0, 0, 0⟩) true,
        countChildren_shift children ⟨1, 0, 0, 0⟩ true, Counts.add_assoc]
    | classExpression =>
      simp only [countNode, Counts.classesUpd, Counts.zero_add]
      rw [countChildren_shift children (c + ⟨1, 0, 0, 0⟩) true,
        countChildren_shift children ⟨1, 0, 0, 0⟩ true, Counts.add_assoc]
    | methodDeclaration =>
      cases b with
      | true =>
        simp only [countNode, Counts.methodsUpd, Counts.zero_add, reduceIte]
        rw [countChildren_shift children (c + ⟨0, 1, 0, 0⟩) true,
          countChildren_shift children ⟨0, 1, 0, 0⟩ true, Counts.add_assoc]
      | false =>
        simp only [countNode, reduceIte]
        exact countChildren_shift children c false
    | getAccessor =>
      cases b with
      | true =>
        simp only [countNode, Counts.methodsUpd, Counts.zero_add, reduceIte]
        rw [countChildren_shift children (c + ⟨0, 1, 0, 0⟩) true,
          countChildren_shift children ⟨0, 1, 0, 0⟩ true, Counts.add_assoc]
      | false =>
        simp only [countNode, reduceIte]
        exact countChildren_shift children c false
    | setAccessor =>
      cases b with
      | true =>
        simp only [countNode, Counts.methodsUpd, Counts.zero_add, reduceIte]
        rw [countChildren_shift children (c + ⟨0, 1, 0, 0⟩) true,
          countChildren_shift children ⟨0, 1, 0, 0⟩ true, Counts.add_assoc]
      | false =>
        simp only [countNode, reduceIte]
        exact countChildren_shift children c false
    | constructorDecl =>
      cases b with
      | true =>
        simp only [countNode, Counts.methodsUpd, Counts.zero_add, reduceIte]
        rw [countChildren_shift children (c + ⟨0, 1, 0, 0⟩) true,
          countChildren_shift children ⟨0, 1, 0, 0⟩ true, Counts.add_assoc]
      | false =>
        simp only [countNode, reduceIte]
        exact countChildren_shift children c false
    | functionDeclaration =>
      simp only [countNode, Counts.functionsUpd, Counts.zero_add]
      rw [countChildren_shift children (c + ⟨0, 0, 1, 0⟩) b,
        countChildren_shift children ⟨0, 0, 1, 0⟩ b, Counts.add_assoc]
    | functionExpression =>
      cases b with
      | true =>
        simp only [countNode, reduceIte]
        exact countChildren_shift children c true
      | false =>
        simp only [countNode, Counts.functionsUpd, Counts.zero_add, reduceIte]
        show countChildren children (c + ⟨0, 0, 1, 0⟩) false =
          c + countChildren children ⟨0, 0, 1, 0⟩ false
        rw [countChildren_shift children (c + ⟨0, 0, 1, 0⟩) false,
          countChildren_shift children ⟨0, 0, 1, 0⟩ false, Counts.add_assoc]
    | arrowFunction =>
      cases b with
      | true =>
        simp only [countNode, reduceIte]
        exact countChildren_shift children c true
      | false =>
        simp only [countNode, Counts.arrowsUpd, Counts.zero_add, reduceIte]
        show countChildren children (c + ⟨0, 0, 0, 1⟩) false =
          c + countChildren children ⟨0, 0, 0, 1⟩ false
        rw [countChildren_shift children (c + ⟨0, 0, 0, 1⟩) false,
          countChildren_shift children ⟨0, 0, 0, 1⟩ false, Counts.add_assoc]
    | other =>
      simp only [countNode]
      exact countChildren_shift children c b

/-- The accumulator is only ever added to: the result of `countChildren`
starting from `c` is `c` plus the children's total contribution. -/
theorem countChildren_shift (l : List TSNode) (c : Counts) (b : Bool) :
    countChildren l c b = c + countChildren l Counts.zero b := by
  cases l with
  | nil => simp [countChildren, Counts.add_zero]
  | cons n rest =>
    rw [countChildren, countChildren, countChildren_shift rest (countNode n c b) b,
      countChildren_shift rest (countNode n Counts.zero b) b,
      countNode_shift n c b, Counts.add_assoc]

end

mutual

/-- True when every node in the subtree has kind `other`, i.e. the
subtree contains none of the kinds the classifier counts. -/
def allOther : TSNode → Bool
  | .mk kind children => (kind == NodeKind.other) && allOtherList children

/-- True when every node in every tree of the list is of kind `other`. -/
def allOtherList : List TSNode → Bool
  | [] => true
  | n :: rest => allOther n && allOtherList rest

end

mutual

/-- A subtree made only of uncounted kinds contributes nothing. -/
theorem countNode_allOther (n : TSNode) (h : allOther n = true) (c : Counts) (b : Bool) :
    countNode n c b = c := by
  cases n with
  | mk kind children =>
    simp only [allOther, Bool.and_eq_true, beq_iff_eq] at h
    obtain ⟨hk, hc⟩ := h
    subst hk
    simp only [countNode]
    exact countChildren_allOther children hc c b

/-- A list of subtrees made only of uncounted kinds contributes nothing. -/
theorem countChildren_allOther (l : List TSNode) (h : allOtherList l = true)
    (c : Counts) (b : Bool) : countChildren l c b = c := by
  cases l with
  | nil => rw [countChildren]
  | cons n rest =>
    simp only [allOtherList, Bool.and_eq_true] at h
    rw [countChildren, countNode_allOther n h.1 c b]
    exact countChildren_allOther rest h.2 c b

end

/-- Processing an appended list processes the two parts in sequence. -/
theorem countChildren_append (l₁ l₂ : List TSNode) (c : Counts) (b : Bool) :
    countChildren (l₁ ++ l₂) c b = countChildren l₂ (countChildren l₁ c b) b := by
  induction l₁ generalizing c with
  | nil => rw [List.nil_append, countChildren]
  | cons n rest ih => rw [List.cons_append, countChildren, countChildren, ih]

/-- The classifier's result is invariant under permuting a child list:
the accumulation is commutative. -/
theorem countChildren_perm {l l' : List TSNode} (h : l.Perm l') (c : Counts) (b : Bool) :
    countChildren l c b = countChildren l' c b := by
  induction h generalizing c with
  | nil => rfl
  | cons x _ ih => rw [countChildren, countChildren, ih]
  | swap x y l =>
    rw [countChildren, countChildren, countChildren, countChildren,
      countNode_shift x (countNode y c b) b, countNode_shift y c b,
      countNode_shift y (countNode x c b) b, countNode_shift x c b,
      Counts.add_assoc, Counts.add_assoc,
      Counts.add_comm (countNode y Counts.zero b) (countNode x Counts.zero b)]
  | trans _ _ ih₁ ih₂ => rw [ih₁, ih₂]

/-- Helper: a method-like member (method, getter, setter, constructor)
whose children count nothing, visited with the flag true, adds exactly
one to `methods`. -/
theorem countNode_methodLike (kind : NodeKind)
    (hk : kind = .methodDeclaration ∨ kind = .getAccessor ∨
      kind = .setAccessor ∨ kind = .constructorDecl)
    (cs : List TSNode) (h : allOtherList cs = true) (c : Counts) :
    countNode (TSNode.mk kind cs) c true = { c with methods := c.methods + 1 } := by
  rcases hk with rfl | rfl | rfl | rfl <;>
    (simp only [countNode, reduceIte]; exact countChildren_allOther cs h _ true)

/-- Helper: a function expression or arrow function whose children count
nothing, visited with the flag true, is suppressed: it changes no bucket. -/
theorem countNode_suppressed (kind : NodeKind)
    (hk : kind = .functionExpression ∨ kind = .arrowFunction)
    (cs : List TSNode) (h : allOtherList cs = true) (c : Counts) :
    countNode (TSNode.mk kind cs) c true = c := by
  rcases hk with rfl | rfl <;>
    (simp only [countNode, reduceIte]; exact countChildren_allOther cs h c true)

/-- C1: for every syntax tree containing exactly one top-level class
declaration whose body holds one method, one getter and one setter (in
any order, with any surrounding uncounted nodes), and no other countable
nodes, the classifier returns classes=1, methods=3, functions=0,
arrows=0. -/
theorem C1_class_with_method_getter_setter
    (pre post fill cm cg cs body : List TSNode)
    (hpre : allOtherList pre = true) (hpost : allOtherList post = true)
    (hfill : allOtherList fill = true)
    (hcm : allOtherList cm = true) (hcg : allOtherList cg = true)
    (hcs : allOtherList cs = true)
    (hbody : body.Perm (TSNode.mk .methodDeclaration cm ::
      TSNode.mk .getAccessor cg :: TSNode.mk .setAccessor cs :: fill)) :
    classify (pre ++ TSNode.mk .classDeclaration body :: post) = ⟨1, 3, 0, 0⟩ := by
  rw [classify, countChildren_append, countChildren_allOther pre hpre,
    countChildren, countChildren_allOther post hpost]
  simp only [countNode, Counts.classesUpd, Counts.zero_add]
  rw [countChildren_perm hbody, countChildren, countChildren, countChildren,
    countNode_methodLike .methodDeclaration (Or.inl rfl) cm hcm,
    countNode_methodLike .getAccessor (Or.inr (Or.inl rfl)) cg hcg,
    countNode_methodLike .setAccessor (Or.inr (Or.inr (Or.inl rfl))) cs hcs,
    countChildren_allOther fill hfill]

theorem C1_witness :
    classify ([] ++ TSNode.mk .classDeclaration [TSNode.mk .methodDeclaration [],
      TSNode.mk .getAccessor [], TSNode.mk .setAccessor []] :: []) = ⟨1, 3, 0, 0⟩ :=
  C1_class_with_method_getter_setter [] [] [] [] [] [] _
    (by simp [allOtherList]) (by simp [allOtherList]) (by simp [allOtherList])
    (by simp [allOtherList]) (by simp [allOtherList]) (by simp [allOtherList])
    (List.Perm.refl _)

/-- C2: for every syntax tree consisting of one class whose single
method body contains an inner arrow expression and an inner function
expression (plus any uncounted nodes), those two inner nodes contribute
to none of the four buckets: the classifier returns classes=1,
methods=1, functions=0, arrows=0. -/
theorem C2_inner_arrow_and_funcexpr_uncounted
    (pre post fill ca cf mbody : List TSNode)
    (hpre : allOtherList pre = true) (hpost : allOtherList post = true)
    (hfill : allOtherList fill = true)
    (hca : allOtherList ca = true) (hcf : allOtherList cf = true)
    (hbody : mbody.Perm (TSNode.mk .arrowFunction ca ::
      TSNode.mk .functionExpression cf :: fill)) :
    classify (pre ++ TSNode.mk .classDeclaration
      [TSNode.mk .methodDeclaration mbody] :: post) = ⟨1, 1, 0, 0⟩ := by
  rw [classify, countChildren_append, countChildren_allOther pre hpre,
    countChildren, countChildren_allOther post hpost]
  simp only [countNode, Counts.classesUpd, Counts.zero_add]
  rw [countChildren, countChildren]
  simp only [countNode, reduceIte]
  rw [countChildren_perm hbody, countChildren, countChildren,
    countNode_suppressed .arrowFunction (Or.inr rfl) ca hca,
    countNode_suppressed .functionExpression (Or.inl rfl) cf hcf,
    countChildren_allOther fill hfill]

theorem C2_witness :
    classify ([] ++ TSNode.mk .classDeclaration
      [TSNode.mk .methodDeclaration [TSNode.mk .arrowFunction [],
        TSNode.mk .functionExpression []]] :: []) = ⟨1, 1, 0, 0⟩ :=
  C2_inner_arrow_and_funcexpr_uncounted [] [] [] [] [] _
    (by simp [allOtherList]) (by simp [allOtherList]) (by simp [allOtherList])
    (by simp [allOtherList]) (by simp [allOtherList]) (List.Perm.refl _)

/-- C3 counterexample: a function declaration nested inside a method
body (where the inherited `inClass` flag is true) IS counted into the
`functions` bucket, contrary to the claim.  With the declaration present
the classifier returns functions=1; with it removed, functions=0 — so
the bucket is changed by exactly that node. -/
theorem C3_counterexample_functionDecl_in_class :
    classify [TSNode.mk .classDeclaration [TSNode.mk .methodDeclaration
      [TSNode.mk .functionDeclaration []]]] = ⟨1, 1, 1, 0⟩ ∧
    classify [TSNode.mk .classDeclaration [TSNode.mk .methodDeclaration []]] =
      ⟨1, 1, 0, 0⟩ := by
  constructor <;> simp [classify, countChildren, countNode, Counts.zero]

/-- C3 amended: a function declaration increments the `functions` bucket
unconditionally — the `inClass` flag does not gate it, so a function
declaration lexically inside a class body is still counted as an FP
construct (here stated for a declaration whose own subtree counts
nothing further, at an arbitrary accumulator and flag). -/
theorem C3_functionDecl_counted_unconditionally
    (cs : List TSNode) (h : allOtherList cs = true) (c : Counts) (b : Bool) :
    countNode (TSNode.mk .functionDeclaration cs) c b =
      { c with functions := c.functions + 1 } := by
  simp only [countNode]
  exact countChildren_allOther cs h _ b

theorem C3_functionDecl_witness :
    countNode (TSNode.mk .functionDeclaration []) ⟨0, 0, 0, 0⟩ true = ⟨0, 0, 1, 0⟩ :=
  C3_functionDecl_counted_unconditionally [] (by simp [allOtherList]) ⟨0, 0, 0, 0⟩ true

/-- C4: a class-like node (class declaration or class expression), at
any accumulator and whatever the incoming `inClass` value, increments
`classes` exactly once and dispatches its children exactly once, with
the flag forced to true for that single pass: its total contribution is
one class plus one copy of its children's contribution computed with
the flag true. -/
theorem C4_class_node_single_dispatch (kind : NodeKind)
    (hk : kind = .classDeclaration ∨ kind = .classExpression)
    (children : List TSNode) (c : Counts) (b : Bool) :
    countNode (TSNode.mk kind children) c b =
      c + (⟨1, 0, 0, 0⟩ + countChildren children Counts.zero true) := by
  rcases hk with rfl | rfl <;>
    (simp only [countNode, Counts.classesUpd]
     rw [countChildren_shift children (c + ⟨1, 0, 0, 0⟩) true, Counts.add_assoc])

theorem C4_class_node_witness :
    countNode (TSNode.mk .classExpression [TSNode.mk .arrowFunction []])
      ⟨0, 0, 0, 0⟩ false =
      ⟨0, 0, 0, 0⟩ + (⟨1, 0, 0, 0⟩ +
        countChildren [TSNode.mk .arrowFunction []] Counts.zero true) ∧
    countNode (TSNode.mk .classExpression [TSNode.mk .arrowFunction []])
      ⟨0, 0, 0, 0⟩ false = ⟨1, 0, 0, 0⟩ := by
  constructor
  · exact C4_class_node_single_dispatch .classExpression (Or.inr rfl) _ _ _
  · rw [C4_class_node_single_dispatch .classExpression (Or.inr rfl)]
    simp [countChildren, countNode, Counts.zero, Counts.add_eq, Counts.add]

/-- ECMAScript `toFixed(2)` of a non-negative number, as the integer
count of hundredths: the `n` with `n / 100` closest to `x`, ties taken
upward (the larger `n`), which is `⌊x * 100 + 1/2⌋`.  JavaScript number
arithmetic is modelled exactly over `ℚ`; every value reaching this
function in the claims is exactly representable. -/
def toFixed2 (x : ℚ) : ℤ := ⌊x * 100 + 1 / 2⌋

/-- The value of the driver's `ratio` string: either a fixed two-decimal
rendering of a number (carried as its count of hundredths) or the
sentinel string literal `"inf"`. -/
inductive RatioStr where
  | fixed (hundredths : ℤ)
  | inf
deriving DecidableEq, Repr

/-- Decimal rendering of the ratio string: `toFixed(2)` output for the
fixed case (non-negative values), the bare sentinel token for `inf`. -/
def RatioStr.render : RatioStr → String
  | .fixed n =>
      toString (n / 100) ++ "." ++
        (if n % 100 < 10 then "0" ++ toString (n % 100) else toString (n % 100))
  | .inf => "inf"

/-- Translation of
`fpTotal > 0 ? (oopTotal / fpTotal).toFixed(2) : "inf"`. -/
def ratioOf (oopTotal fpTotal : Nat) : RatioStr :=
  if 0 < fpTotal then .fixed (toFixed2 ((oopTotal : ℚ) / (fpTotal : ℚ))) else .inf

/-- Translation of the text-mode line
`console.log(\x7bRatio (OOP:FP): $ratio:1\x7d)`: the rendered ratio
between the fixed prefix and the `:1` suffix. -/
def ratioLine (r : RatioStr) : String :=
  "Ratio (OOP:FP): " ++ RatioStr.render r ++ ":1"

/-- Translation of the driver's accumulation loop: walk the path list,
parse each file (the oracle `parse` stands for `readFileSync` +
`createSourceFile`: `some` top-level nodes on success, `none` on
failure), and add the per-file counts field by field into the running
totals. -/
def runTotals (parse : List String → Option (List TSNode))
    (paths : List (List String)) : Counts :=
  paths.foldl (fun totals p => totals + countFile (parse p)) Counts.zero

/-- The fields of the report assembled by the driver after the loop. -/
structure Report where
  files : Nat
  oopTotal : Nat
  classes : Nat
  methods : Nat
  fpTotal : Nat
  functions : Nat
  arrowFunctions : Nat
  ratio : RatioStr
deriving DecidableEq, Repr

/-- Translation of the driver tail: `files.length`, the two bucket
totals `oopTotal = classes + methods` and
`fpTotal = functions + arrowFunctions`, and the ratio string. -/
def mainReport (parse : List String → Option (List TSNode))
    (paths : List (List String)) : Report :=
  let totals := runTotals parse paths
  let oopTotal := totals.classes + totals.methods
  let fpTotal := totals.functions + totals.arrowFunctions
  { files := paths.length
    oopTotal := oopTotal
    classes := totals.classes
    methods := totals.methods
    fpTotal := fpTotal
    functions := totals.functions
    arrowFunctions := totals.arrowFunctions
    ratio := ratioOf oopTotal fpTotal }

/-- A numeric JSON field after serialisation: a finite number, or
`null` (how `JSON.stringify` emits `NaN`). -/
inductive JsonNum where
  | num (q : ℚ)
  | null
deriving DecidableEq, Repr

/-- Model of `parseFloat(ratio)` followed by `JSON.stringify`:
`parseFloat` of a fixed two-decimal rendering recovers exactly its
value; `parseFloat("inf")` is `NaN` ("inf" is not a numeric prefix —
only the full word "Infinity" would parse), and `JSON.stringify`
serialises `NaN` as `null`. -/
def parseFloatRatio : RatioStr → JsonNum
  | .fixed n => .num ((n : ℚ) / 100)
  | .inf => .null

/-- The JSON-mode record emitted by the driver. -/
structure JsonOut where
  files : Nat
  oopTotal : Nat
  classes : Nat
  methods : Nat
  fpTotal : Nat
  functions : Nat
  arrowFunctions : Nat
  ratio : JsonNum
deriving DecidableEq, Repr

/-- Translation of the `--json` branch: the same fields as the report,
with the ratio string passed through `parseFloat` and serialised. -/
def jsonOut (parse : List String → Option (List TSNode))
    (paths : List (List String)) : JsonOut :=
  let r := mainReport parse paths
  { files := r.files
    oopTotal := r.oopTotal
    classes := r.classes
    methods := r.methods
    fpTotal := r.fpTotal
    functions := r.functions
    arrowFunctions := r.arrowFunctions
    ratio := parseFloatRatio r.ratio }

/-- The driver's loop only ever adds to the running totals. -/
theorem runTotals_foldl_shift (parse : List String → Option (List TSNode))
    (paths : List (List String)) (c : Counts) :
    paths.foldl (fun totals p => totals + countFile (parse p)) c =
      c + paths.foldl (fun totals p => totals + countFile (parse p)) Counts.zero := by
  induction paths generalizing c with
  | nil => simp only [List.foldl_nil]; rw [Counts.add_zero]
  | cons p rest ih =>
    rw [List.foldl_cons, List.foldl_cons, ih (c + countFile (parse p)),
      ih (Counts.zero + countFile (parse p)), Counts.zero_add, Counts.add_assoc]

/-- The grand totals are the componentwise sums of the per-file counts. -/
theorem runTotals_eq (parse : List String → Option (List TSNode))
    (paths : List (List String)) :
    runTotals parse paths =
      ⟨(paths.map fun p => (countFile (parse p)).classes).sum,
       (paths.map fun p => (countFile (parse p)).methods).sum,
       (paths.map fun p => (countFile (parse p)).functions).sum,
       (paths.map fun p => (countFile (parse p)).arrowFunctions).sum⟩ := by
  induction paths with
  | nil => rfl
  | cons p rest ih =>
    have h1 : runTotals parse (p :: rest) =
        countFile (parse p) + runTotals parse rest := by
      rw [runTotals, runTotals, List.foldl_cons, runTotals_foldl_shift, Counts.zero_add]
    rw [h1, ih]
    simp [Counts.add_eq, Counts.add]

/-- C5: after processing any list of files, each field of the grand
totals equals the sum over all files of that file's corresponding
per-file count; a file whose read or parse fails contributes the zero
counters to every bucket, yet the reported file count is the length of
the walker's path list, independent of parse outcomes. -/
theorem C5_totals_are_per_file_sums (parse : List String → Option (List TSNode))
    (paths : List (List String)) :
    ((runTotals parse paths).classes =
        (paths.map fun p => (countFile (parse p)).classes).sum ∧
      (runTotals parse paths).methods =
        (paths.map fun p => (countFile (parse p)).methods).sum ∧
      (runTotals parse paths).functions =
        (paths.map fun p => (countFile (parse p)).functions).sum ∧
      (runTotals parse paths).arrowFunctions =
        (paths.map fun p => (countFile (parse p)).arrowFunctions).sum) ∧
    countFile none = ⟨0, 0, 0, 0⟩ ∧
    (mainReport parse paths).files = paths.length := by
  refine ⟨⟨?_, ?_, ?_, ?_⟩, rfl, rfl⟩ <;> rw [runTotals_eq]

/-- Scenario file A of the end-to-end test: one class with two methods. -/
def fileA : List TSNode :=
  [TSNode.mk .classDeclaration
    [TSNode.mk .methodDeclaration [], TSNode.mk .methodDeclaration []]]

/-- Scenario file B of the end-to-end test: three free function
declarations and five free arrow expressions at top level. -/
def fileB : List TSNode :=
  [TSNode.mk .functionDeclaration [], TSNode.mk .functionDeclaration [],
   TSNode.mk .functionDeclaration [],
   TSNode.mk .arrowFunction [], TSNode.mk .arrowFunction [],
   TSNode.mk .arrowFunction [], TSNode.mk .arrowFunction [],
   TSNode.mk .arrowFunction []]

/-- Names of the two scenario files, built from characters. -/
def pathA : List String := [String.mk ['a', '.', 't', 's']]

def pathB : List String := [String.mk ['b', '.', 't', 's']]

/-- Parse oracle of the end-to-end scenario: two files, both parse. -/
def parseAB (p : List String) : Option (List TSNode) :=
  if p = pathA then some fileA
  else if p = pathB then some fileB
  else none

/-- C6: on the two-file input (file A: one class with two methods;
file B: three free functions and five free arrows) the aggregated
output is files=2, oop.total=3 (classes=1, methods=2), fp.total=8
(functions=3, arrowFunctions=5), and the ratio is 0.38 — 3/8 rounded
to two decimal places (38 hundredths, rendered "0.38"). -/
theorem C6_end_to_end_two_files :
    mainReport parseAB [pathA, pathB] =
      { files := 2, oopTotal := 3, classes := 1, methods := 2,
        fpTotal := 8, functions := 3, arrowFunctions := 5,
        ratio := RatioStr.fixed 38 } ∧
    RatioStr.render (RatioStr.fixed 38) = "0.38" := by
  have hA : countFile (parseAB pathA) = ⟨1, 2, 0, 0⟩ := by
    simp [parseAB, countFile, classify, fileA, countChildren, countNode, Counts.zero]
  have hB : countFile (parseAB pathB) = ⟨0, 0, 3, 5⟩ := by
    simp [parseAB, pathA, pathB, countFile, classify, fileB, countChildren, countNode,
      Counts.zero]
  have ht : runTotals parseAB [pathA, pathB] = ⟨1, 2, 3, 5⟩ := by
    simp only [runTotals, List.foldl_cons, List.foldl_nil]
    rw [hA, hB, Counts.zero_add]
    simp [Counts.add_eq, Counts.add]
  have hr : ratioOf 3 8 = RatioStr.fixed 38 := by
    simp only [ratioOf]
    norm_num [toFixed2]
  constructor
  · simp only [mainReport, ht]
    simp only [List.length_cons, List.length_nil]
    rw [show (⟨1, 2, 3, 5⟩ : Counts).classes + (⟨1, 2, 3, 5⟩ : Counts).methods = 3 from rfl,
      show (⟨1, 2, 3, 5⟩ : Counts).functions + (⟨1, 2, 3, 5⟩ : Counts).arrowFunctions = 8
        from rfl, hr]
  · decide

/-- C7: whenever the aggregated fpTotal is 0 and oopTotal is positive,
the ratio value is the sentinel `inf` and the text-mode ratio line is
rendered with the sentinel token (no division is attempted: the guard
`fpTotal > 0` selects the sentinel branch, and every function involved
is total, so no crash or numeric artifact can occur). -/
theorem C7_sentinel_on_zero_fp (oopTotal fpTotal : Nat)
    (h0 : fpTotal = 0) (h1 : 0 < oopTotal) :
    ratioOf oopTotal fpTotal = RatioStr.inf ∧
    ratioLine (ratioOf oopTotal fpTotal) = "Ratio (OOP:FP): inf:1" := by
  subst h0
  refine ⟨by simp [ratioOf], ?_⟩
  simp only [ratioOf, Nat.lt_irrefl, if_false]
  decide

theorem C7_sentinel_witness :
    0 < 5 ∧ ratioOf 5 0 = RatioStr.inf ∧
      ratioLine (ratioOf 5 0) = "Ratio (OOP:FP): inf:1" :=
  ⟨by decide, C7_sentinel_on_zero_fp 5 0 rfl (by decide)⟩

/-- C8: in `--json` mode, when the aggregated fpTotal is 0 the emitted
ratio field is `null` (`parseFloat("inf")` is `NaN`, which
`JSON.stringify` serialises as `null`); no exception is raised (the
model is total) and every other field of the record carries its normal
value. -/
theorem C8_json_null_ratio_on_zero_fp (parse : List String → Option (List TSNode))
    (paths : List (List String))
    (h : (runTotals parse paths).functions + (runTotals parse paths).arrowFunctions = 0) :
    jsonOut parse paths =
      { files := paths.length,
        oopTotal := (runTotals parse paths).classes + (runTotals parse paths).methods,
        classes := (runTotals parse paths).classes,
        methods := (runTotals parse paths).methods,
        fpTotal := 0,
        functions := (runTotals parse paths).functions,
        arrowFunctions := (runTotals parse paths).arrowFunctions,
        ratio := JsonNum.null } := by
  simp only [jsonOut, mainReport, h, ratioOf, Nat.lt_irrefl, if_false, parseFloatRatio]

theorem C8_json_null_witness :
    jsonOut (fun _ => none) [] =
      { files := 0, oopTotal := 0, classes := 0, methods := 0, fpTotal := 0,
        functions := 0, arrowFunctions := 0, ratio := JsonNum.null } :=
  C8_json_null_ratio_on_zero_fp (fun _ => none) [] rfl

/-- C9: `countFile` returns the all-zero counters whenever reading or
parsing fails (the `none` outcome of the read/parse oracle covers every
failure its `try` catches), and, being a total function, never
propagates the failure to its caller. -/
theorem C9_failure_contributes_zero : countFile none = ⟨0, 0, 0, 0⟩ := rfl

/-- The built-in directory skip list `SKIP_DIRS` of `count.ts`. -/
def SKIP_DIRS : List String :=
  [r"node_modules", r".next", r".git", r"dist", r"build", r"out", r".turbo",
   r".cache", r"coverage", r"__pycache__", r".bazel-cache", r"bazel-out",
   r".output", r".nuxt", r".svelte-kit"]

def tsExt : String := ".ts"

def tsxExt : String := ".tsx"

def dtsExt : String := ".d.ts"

def slash : String := "/"

/-- Translation of the file-name filter: the regex test
`/\.(ts|tsx)$/.test(name)` holds exactly when the name ends in ".ts" or
".tsx", and the declaration filter rejects names ending in ".d.ts". -/
def isSourceName (name : String) : Bool :=
  (name.endsWith tsExt || name.endsWith tsxExt) && !name.endsWith dtsExt

/-- JavaScript `s.includes(pat)`: `pat` occurs as a contiguous substring
of `s`, decided on the underlying character lists. -/
def strContains (s pat : String) : Bool := decide (pat.data <:+: s.data)

/-- Node's `path.relative`/`path.join` on POSIX for simple names: the
relative path of a component list is the components joined by "/". -/
def relString (comps : List String) : String := String.intercalate slash comps

/-- A directory tree as seen by `readdirSync` with file types: entries
are plain files or subdirectories (other entry kinds, which the walker
ignores, are omitted).  Unreadable directories are not modelled — the
walker's `catch` makes them contribute no entries, like an empty
directory. -/
inductive FSEntry where
  | file (name : String)
  | dir (name : String) (entries : List FSEntry)

mutual

/-- Translation of one iteration of the `for (const entry of entries)`
loop in `walkDir`'s inner `walk`, for the entry at relative component
path `rel ++ [entry name]`: directories are skipped when their bare
name is in `SKIP_DIRS` or their relative path contains an exclusion
substring, and otherwise walked recursively; files are kept when they
pass the extension filter and the same exclusion test.  Result paths
are represented by their components relative to the root. -/
def walkEntry (excl : List String) (rel : List String) : FSEntry → List (List String)
  | .dir name sub =>
      if SKIP_DIRS.contains name then []
      else if excl.any fun pat => strContains (relString (rel ++ [name])) pat then []
      else walkList excl (rel ++ [name]) sub
  | .file name =>
      if isSourceName name &&
          !(excl.any fun pat => strContains (relString (rel ++ [name])) pat) then
        [rel ++ [name]]
      else []

/-- The whole loop body over a directory's entry list, keeping the
visit order (subdirectory results are spliced in place). -/
def walkList (excl : List String) (rel : List String) : List FSEntry → List (List String)
  | [] => []
  | e :: rest => walkEntry excl rel e ++ walkList excl rel rest

end

/-- Translation of `walkDir(dir, excludePatterns)`: walk the root's
entry list with an empty relative path. -/
def walkDir (root : List FSEntry) (excl : List String) : List (List String)  :=
  walkList excl [] root

mutual

/-- The component path `p` names a file reachable through this entry. -/
def entryHasFileAt : FSEntry → List String → Bool
  | .file name, p => p == [name]
  | .dir name sub, p =>
    match p with
    | m :: rest => name == m && hasFileAt sub rest
    | [] => false

/-- The component path `p` names a file in this entry list. -/
def hasFileAt : List FSEntry → List String → Bool
  | [], _ => false
  | e :: rest, p => entryHasFileAt e p || hasFileAt rest p

end

/-- Spec-side predicate, written from the claim's words (for the
refinement comparison with `walkDir`): a component path, taken relative
to position `rel`, is acceptable when its final component passes the
source-extension/declaration filter and its relative path contains no
exclusion substring, and every directory on the way (every proper
non-empty prefix) has a bare name outside the built-in skip set and a
relative path containing no exclusion substring. -/
def specAllowedPath (excl : List String) (rel : List String) : List String → Bool
  | [] => false
  | name :: rest =>
    match rest with
    | [] =>
        isSourceName name &&
          !(excl.any fun pat => strContains (relString (rel ++ [name])) pat)
    | _ :: _ =>
        !(SKIP_DIRS.contains name) &&
        (!(excl.any fun pat => strContains (relString (rel ++ [name])) pat) &&
          specAllowedPath excl (rel ++ [name]) rest)

/-- No entry holds a file at the empty path. -/
theorem entryHasFileAt_nil (e : FSEntry) : entryHasFileAt e [] = false := by
  cases e <;> simp [entryHasFileAt]

theorem hasFileAt_nil (entries : List FSEntry) : hasFileAt entries [] = false := by
  induction entries with
  | nil => simp [hasFileAt]
  | cons e rest ih => simp [hasFileAt, entryHasFileAt_nil, ih]

mutual

/-- Characterisation of the paths produced for a single entry. -/
theorem walkEntry_mem (excl rel : List String) (e : FSEntry) (p : List String) :
    p ∈ walkEntry excl rel e ↔
      ∃ q, p = rel ++ q ∧ entryHasFileAt e q = true ∧
        specAllowedPath excl rel q = true := by
  cases e with
  | file name =>
    constructor
    · intro hp
      rw [walkEntry] at hp
      by_cases hc : (isSourceName name &&
          !(excl.any fun pat => strContains (relString (rel ++ [name])) pat)) = true
      · rw [if_pos hc, List.mem_singleton] at hp
        exact ⟨[name], hp, by simp [entryHasFileAt], hc⟩
      · rw [if_neg hc] at hp
        exact absurd hp (List.not_mem_nil p)
    · rintro ⟨q, rfl, hq, hs⟩
      have hq' : q = [name] := by simpa [entryHasFileAt] using hq
      subst hq'
      simp only [specAllowedPath] at hs
      rw [walkEntry, if_pos hs]
      exact List.mem_singleton.mpr rfl
  | dir name sub =>
    constructor
    · intro hp
      rw [walkEntry] at hp
      by_cases hskip : SKIP_DIRS.contains name = true
      · rw [if_pos hskip] at hp
        exact absurd hp (List.not_mem_nil p)
      · rw [if_neg hskip] at hp
        by_cases hex : (excl.any fun pat =>
            strContains (relString (rel ++ [name])) pat) = true
        · rw [if_pos hex] at hp
          exact absurd hp (List.not_mem_nil p)
        · rw [if_neg hex] at hp
          obtain ⟨q', hq'p, hq'has, hq'ok⟩ := (walkList_mem excl (rel ++ [name]) sub p).mp hp
          refine ⟨name :: q', by simpa using hq'p, ?_, ?_⟩
          · simp [entryHasFileAt, hq'has]
          · cases q' with
            | nil => rw [hasFileAt_nil] at hq'has; exact absurd hq'has (by simp)
            | cons r rs =>
              simp only [specAllowedPath, Bool.and_eq_true, Bool.not_eq_true']
              refine ⟨?_, ?_, hq'ok⟩
              · simpa using hskip
              · simpa using hex
    · rintro ⟨q, rfl, hq, hs⟩
      cases q with
      | nil => rw [entryHasFileAt_nil] at hq; exact absurd hq (by simp)
      | cons m rest =>
        simp only [entryHasFileAt, Bool.and_eq_true, beq_iff_eq] at hq
        obtain ⟨hnm, hrest⟩ := hq
        subst hnm
        cases rest with
        | nil => rw [hasFileAt_nil] at hrest; exact absurd hrest (by simp)
        | cons r rs =>
          simp only [specAllowedPath, Bool.and_eq_true, Bool.not_eq_true'] at hs
          obtain ⟨hskip, hex, hok⟩ := hs
          rw [walkEntry, if_neg (by rw [hskip]; exact Bool.false_ne_true),
            if_neg (by rw [hex]; exact Bool.false_ne_true)]
          exact (walkList_mem excl (rel ++ [name]) sub _).mpr
            ⟨r :: rs, by simp, hrest, hok⟩

/-- Characterisation of the paths produced for an entry list. -/
theorem walkList_mem (excl rel : List String) (entries : List FSEntry)
    (p : List String) :
    p ∈ walkList excl rel entries ↔
      ∃ q, p = rel ++ q ∧ hasFileAt entries q = true ∧
        specAllowedPath excl rel q = true := by
  cases entries with
  | nil =>
    rw [walkList]
    simp [hasFileAt]
  | cons e rest =>
    rw [walkList, List.mem_append, walkEntry_mem excl rel e p,
      walkList_mem excl rel rest p]
    constructor
    · rintro (⟨q, rfl, hq, hs⟩ | ⟨q, rfl, hq, hs⟩)
      · exact ⟨q, rfl, by simp [hasFileAt, hq], hs⟩
      · exact ⟨q, rfl, by simp [hasFileAt, hq], hs⟩
    · rintro ⟨q, rfl, hq, hs⟩
      rw [hasFileAt, Bool.or_eq_true] at hq
      rcases hq with hq | hq
      · exact Or.inl ⟨q, rfl, hq, hs⟩
      · exact Or.inr ⟨q, rfl, hq, hs⟩

end

/-- C10: a file path (as components relative to the root) appears in the
walker's result if and only if it names a file in the tree, its final
component ends in one of the two recognised source extensions but not
in the declaration-only double extension, its relative path contains no
exclusion substring, and every directory on the way from the root to
the file has a bare name outside the built-in skip set and a relative
path containing no exclusion substring (all captured by
`specAllowedPath`). -/
theorem C10_walker_includes_iff (root : List FSEntry) (excl : List String)
    (p : List String) :
    p ∈ walkDir root excl ↔
      hasFileAt root p = true ∧ specAllowedPath excl [] p = true := by
  rw [walkDir, walkList_mem]
  constructor
  · rintro ⟨q, rfl, hq, hs⟩
    simpa using ⟨hq, hs⟩
  · rintro ⟨hq, hs⟩
    exact ⟨p, by simp, hq, hs⟩
